import Mathlib

/-!
# shove: the Redis-backed reliable queue (`internal/queue/redis/queue.go`)

A shallow embedding of `redisQueue` and `redisQueueFactory`.

* The Redis server is a map from keys to lists of byte strings; the head of a
  list is its left end, the tail its right end, as in the Redis documentation.
* The shared `redis.Pool` is a closed flag plus a schedule of transport
  outcomes, one entry per command sent on a connection.
* The message codec (`types.PushMessage.Marshal`, `types.UnmarshalPushMessage`)
  lives in another package and is a parameter.
* `context.Context` is the sequence of answers `ctx.Err()` gives to the
  successive checks of one `Get` call.
* Loops that the source runs without a bound take a fuel argument; `none`
  means the loop was still running when the fuel ran out.
-/

namespace Shove

/-- A byte string: a Go `[]byte`, one number per byte. -/
abbrev Bytes := List Nat

/-- The errors the queue can hand back. -/
inductive Err where
  /-- The value `redis.ErrNil`: the reply was nil. -/
  | ErrNil
  /-- A connection or transport failure reported by `conn.Do` or `conn.Send`. -/
  | transport
  /-- The error of a connection taken from a closed pool. -/
  | poolClosed
  /-- The value `errors.New("queue shutting down")`. -/
  | shuttingDown
  /-- An error returned by `Marshal`. -/
  | marshal
  /-- An error returned by `UnmarshalPushMessage`. -/
  | unmarshal
  deriving DecidableEq, Repr

/-- The message codec of package `types`, taken as a parameter. -/
structure Codec (Msg : Type) where
  /-- The method `msg.Marshal()`. -/
  Marshal : Msg → Except Err Bytes
  /-- The function `types.UnmarshalPushMessage(raw)`. -/
  UnmarshalPushMessage : Bytes → Except Err Msg

/-- The lists held by the Redis server, by key; a missing key is the empty list. -/
abbrev Store := String → List Bytes

/-- Replace the list stored at one key. -/
def Store.set (s : Store) (k : String) (v : List Bytes) : Store :=
  fun k' => if k' = k then v else s k'

/-- Redis `RPUSH key v`: insert `v` at the tail of the list at `key`. -/
def Store.rpush (s : Store) (key : String) (v : Bytes) : Store :=
  s.set key (s key ++ [v])

/-- Redis `LREM key 1 v`: remove the first occurrence of `v`, searching from the
head; the reply is the number of removed elements. -/
def Store.lrem1 (s : Store) (key : String) (v : Bytes) : Nat × Store :=
  if v ∈ s key then (1, s.set key ((s key).erase v)) else (0, s)

/-- Redis `RPOPLPUSH src dst`: remove the last element of the list at `src` and
push it as the first element of the list at `dst`; the reply is that element,
or nil when `src` is empty. With `src = dst` the list is rotated. -/
def Store.rpoplpush (s : Store) (src dst : String) : Option Bytes × Store :=
  match (s src).getLast? with
  | none => (none, s)
  | some v =>
    let s1 := s.set src (s src).dropLast
    (some v, s1.set dst (v :: s1 dst))

/-- The Redis server together with the shared connection pool. -/
structure World where
  /-- The lists on the server. -/
  store : Store
  /-- The pool has been closed by `pool.Close()`. -/
  poolClosed : Bool
  /-- Transport outcome of the commands still to come, `true` for a failure;
  past the end of the list no command fails. -/
  faults : List Bool

/-- One command on a pooled connection: fails with `poolClosed` on a connection
from a closed pool, with `transport` when the schedule says so; a failed command
does not reach the server. -/
def World.command (w : World) : Option Err × World :=
  if w.poolClosed then (some Err.poolClosed, w)
  else
    match w.faults with
    | [] => (none, w)
    | f :: fs => (if f then some Err.transport else none, { w with faults := fs })

/-- No command fails: the pool is open and the schedule holds no failure. -/
def World.healthy (w : World) : Prop :=
  w.poolClosed = false ∧ ∀ f ∈ w.faults, f = false

/-- The call `conn.Do("RPUSH", key, v)`. -/
def World.doRPUSH (w : World) (key : String) (v : Bytes) : Option Err × World :=
  match w.command with
  | (some e, w1) => (some e, w1)
  | (none, w1) => (none, { w1 with store := w1.store.rpush key v })

/-- The call `redis.Int(conn.Do("LREM", key, 1, v))`. -/
def World.doLREM (w : World) (key : String) (v : Bytes) : Except Err Nat × World :=
  match w.command with
  | (some e, w1) => (Except.error e, w1)
  | (none, w1) =>
    let r := w1.store.lrem1 key v
    (Except.ok r.1, { w1 with store := r.2 })

/-- The call `redis.Bytes(conn.Do("RPOPLPUSH", src, dst))`; a nil reply is
`redis.ErrNil`. -/
def World.doRPOPLPUSH (w : World) (src dst : String) : Except Err Bytes × World :=
  match w.command with
  | (some e, w1) => (Except.error e, w1)
  | (none, w1) =>
    match w1.store.rpoplpush src dst with
    | (none, s) => (Except.error Err.ErrNil, { w1 with store := s })
    | (some v, s) => (Except.ok v, { w1 with store := s })

/-- The call `redis.Bytes(conn.Do("BRPOPLPUSH", src, dst, timeout))`: the
blocking form of `RPOPLPUSH`; on an empty source it waits out the timeout and
replies nil. -/
def World.doBRPOPLPUSH (w : World) (src dst : String) (_timeout : Nat) :
    Except Err Bytes × World :=
  w.doRPOPLPUSH src dst

/-- The call `conn.Send(...)`: the command is buffered, nothing runs yet. -/
def World.send (w : World) : Option Err × World :=
  w.command

/-- The call `conn.Do("EXEC")` after `MULTI`, `LREM pl 1 raw`, `RPUSH l raw`
were sent: both queued commands run, in order, or neither does. -/
def World.doEXEC (w : World) (l pl : String) (raw : Bytes) : Option Err × World :=
  match w.command with
  | (some e, w1) => (some e, w1)
  | (none, w1) => (none, { w1 with store := ((w1.store.lrem1 pl raw).2).rpush l raw })

/-- The struct `redisQueue`; its `pool` field points at the pool of the world. -/
structure redisQueue where
  /-- The queue id. -/
  id : String
  /-- The shutting-down flag. -/
  shuttingDown : Bool
  deriving DecidableEq, Repr

/-- The struct `redisQueuedMessage`: the raw bytes and the decoded message. -/
structure redisQueuedMessage (Msg : Type) where
  /-- The bytes as claimed from the main list. -/
  raw : Bytes
  /-- The decoded message. -/
  msg : Msg

/-- The method `listNames`: the main list and the processing list of a queue. -/
def redisQueue.listNames (rq : redisQueue) : String × String :=
  let l := "shove:" ++ rq.id
  let pl := l ++ ":pending"
  (l, pl)

/-- The method `Queue`. -/
def redisQueue.Queue {Msg : Type} (c : Codec Msg) (rq : redisQueue) (msg : Msg) (w : World) :
    Option Err × World :=
  match c.Marshal msg with
  | Except.error e => (some e, w)
  | Except.ok marshalled =>
    let l := rq.listNames.1
    -- `_, err = conn.Do("RPUSH", l, marshalled)` followed by `return nil`
    let r := w.doRPUSH l marshalled
    (none, r.2)

/-- The method `Shutdown`: sets the flag and closes the pool; `pool.Close()`
returns nil. -/
def redisQueue.Shutdown (rq : redisQueue) (w : World) : redisQueue × Option Err × World :=
  ({ rq with shuttingDown := true }, none, { w with poolClosed := true })

/-- The method `Remove`. -/
def redisQueue.Remove {Msg : Type} (rq : redisQueue) (qm : redisQueuedMessage Msg) (w : World) :
    Option Err × World :=
  let pl := rq.listNames.2
  match w.doLREM pl qm.raw with
  | (Except.error e, w1) => (some e, w1)
  | (Except.ok _, w1) => (none, w1)

/-- The method `Requeue`. -/
def redisQueue.Requeue {Msg : Type} (rq : redisQueue) (qm : redisQueuedMessage Msg) (w : World) :
    Option Err × World :=
  let l := rq.listNames.1
  let pl := rq.listNames.2
  match w.send with
  | (some e, w1) => (some e, w1)
  | (none, w1) =>
    match w1.send with
    | (some e, w2) => (some e, w2)
    | (none, w2) =>
      match w2.send with
      | (some e, w3) => (some e, w3)
      | (none, w3) => w3.doEXEC l pl qm.raw

/-- The loop of `Get`; `k` counts the checks of `ctx.Err()` made so far. -/
def redisQueue.getLoop {Msg : Type} (c : Codec Msg) (l pl : String) (ctx : Nat → Bool) :
    Nat → Nat → World → Option ((Option (redisQueuedMessage Msg) × Option Err) × World)
  | 0, _, _ => none
  | fuel + 1, k, w =>
    if ctx k then some ((none, some Err.shuttingDown), w)
    else
      match w.doBRPOPLPUSH l pl 2 with
      | (Except.error Err.ErrNil, w1) => redisQueue.getLoop c l pl ctx fuel (k + 1) w1
      | (Except.error e, w1) => some ((none, some e), w1)
      | (Except.ok raw, w1) =>
        match c.UnmarshalPushMessage raw with
        | Except.error e => some ((none, some e), w1)
        | Except.ok m => some ((some ⟨raw, m⟩, none), w1)

/-- The method `Get`; `ctx k` says whether the context is cancelled at the
`k`-th check of `ctx.Err()`. -/
def redisQueue.Get {Msg : Type} (c : Codec Msg) (rq : redisQueue) (ctx : Nat → Bool)
    (fuel : Nat) (w : World) :
    Option ((Option (redisQueuedMessage Msg) × Option Err) × World) :=
  redisQueue.getLoop c rq.listNames.1 rq.listNames.2 ctx fuel 0 w

/-- The loop of `recover`. -/
def redisQueue.recoverLoop (l pl : String) : Nat → World → Option (Option Err × World)
  | 0, _ => none
  | fuel + 1, w =>
    match w.doRPOPLPUSH pl l with
    | (Except.error Err.ErrNil, w1) => some (none, w1)
    | (Except.error e, w1) => some (some e, w1)
    | (Except.ok _, w1) => redisQueue.recoverLoop l pl fuel w1

/-- The method `recover`. -/
def redisQueue.recover (rq : redisQueue) (fuel : Nat) (w : World) : Option (Option Err × World) :=
  redisQueue.recoverLoop rq.listNames.1 rq.listNames.2 fuel w

/-- The method `NewQueue` of `redisQueueFactory`, whose only field is the pool. -/
def redisQueueFactory.NewQueue (id : String) (fuel : Nat) (w : World) :
    Option ((Option redisQueue × Option Err) × World) :=
  let rq : redisQueue := { id := id, shuttingDown := false }
  match rq.recover fuel w with
  | none => none
  | some (some e, w1) => some ((none, some e), w1)
  | some (none, w1) => some ((some rq, none), w1)

/-- A world with the given main and processing lists for queue id `q`, every
other list empty. -/
def World.ofLists (main processing : List Bytes) (closed : Bool) (faults : List Bool) : World :=
  { store := fun k =>
      if k = "shove:q" then main else if k = "shove:q:pending" then processing else []
    poolClosed := closed
    faults := faults }

/-- A codec that stores a byte string as itself and rejects the empty string
when decoding. -/
def bytesCodec : Codec Bytes :=
  { Marshal := fun m => Except.ok m
    UnmarshalPushMessage := fun raw => if raw = [] then Except.error Err.unmarshal else Except.ok raw }

/-! ## Keys -/

theorem Store.set_same (s : Store) (k : String) (v : List Bytes) : s.set k v k = v := by
  simp [Store.set]

theorem Store.set_other (s : Store) (k k' : String) (v : List Bytes) (h : k' ≠ k) :
    s.set k v k' = s k' := by
  simp [Store.set, h]

theorem string_append_left_cancel (p a b : String) (h : p ++ a = p ++ b) : a = b := by
  have h1 : (p ++ a).data = (p ++ b).data := by rw [h]
  rw [String.data_append, String.data_append] at h1
  exact String.ext (List.append_cancel_left h1)

theorem string_append_right_cancel (a b p : String) (h : a ++ p = b ++ p) : a = b := by
  have h1 : (a ++ p).data = (b ++ p).data := by rw [h]
  rw [String.data_append, String.data_append] at h1
  exact String.ext (List.append_cancel_right h1)

theorem string_ne_append_pending (a : String) : a ≠ a ++ ":pending" := by
  intro h
  have h1 : a.length = (a ++ ":pending").length := by rw [← h]
  rw [String.length_append] at h1
  have h2 : (":pending" : String).length = 8 := by decide
  omega

theorem listNames_fst (rq : redisQueue) : rq.listNames.1 = "shove:" ++ rq.id := rfl

theorem listNames_snd (rq : redisQueue) : rq.listNames.2 = "shove:" ++ rq.id ++ ":pending" := rfl

theorem listNames_ne (rq : redisQueue) : rq.listNames.1 ≠ rq.listNames.2 := by
  rw [listNames_snd, listNames_fst]
  exact string_ne_append_pending _

/-- C10, as stated, fails: the main list of queue `x:pending` is the processing
list of queue `x`. -/
theorem listNames_shared_list :
    ("x:pending" : String) ≠ "x" ∧
      (redisQueue.listNames ⟨"x:pending", false⟩).1 = (redisQueue.listNames ⟨"x", false⟩).2 := by
  decide

/-- C10, amended: for distinct ids `a` and `b` the two main lists differ and
the two processing lists differ, the main list of a queue is never its own
processing list, and the main list of `a` is the processing list of `b` exactly
when `a` is `b` followed by `:pending`. -/
theorem listNames_distinct (a b : String) (fa fb : Bool) (h : a ≠ b) :
    (redisQueue.listNames ⟨a, fa⟩).1 ≠ (redisQueue.listNames ⟨b, fb⟩).1 ∧
    (redisQueue.listNames ⟨a, fa⟩).2 ≠ (redisQueue.listNames ⟨b, fb⟩).2 ∧
    (redisQueue.listNames ⟨a, fa⟩).1 ≠ (redisQueue.listNames ⟨a, fa⟩).2 ∧
    ((redisQueue.listNames ⟨a, fa⟩).1 = (redisQueue.listNames ⟨b, fb⟩).2 ↔ a = b ++ ":pending") := by
  refine ⟨?_, ?_, listNames_ne _, ?_⟩
  · intro e
    exact h (string_append_left_cancel _ _ _ e)
  · intro e
    simp only [listNames_snd] at e
    exact h (string_append_left_cancel _ _ _ (string_append_right_cancel _ _ _ e))
  · simp only [listNames_snd, listNames_fst]
    constructor
    · intro e
      rw [String.append_assoc] at e
      exact string_append_left_cancel _ _ _ e
    · intro e
      rw [e, String.append_assoc]

/-- Witness for `listNames_distinct` at the ids `a` and `b`. -/
theorem listNames_distinct_witness :
    ("a" : String) ≠ "b" ∧
    (redisQueue.listNames ⟨"a", false⟩).1 ≠ (redisQueue.listNames ⟨"b", false⟩).1 ∧
    (redisQueue.listNames ⟨"a", false⟩).2 ≠ (redisQueue.listNames ⟨"b", false⟩).2 ∧
    (redisQueue.listNames ⟨"a", false⟩).1 ≠ (redisQueue.listNames ⟨"a", false⟩).2 ∧
    ((redisQueue.listNames ⟨"a", false⟩).1 = (redisQueue.listNames ⟨"b", false⟩).2 ↔
      ("a" : String) = "b" ++ ":pending") :=
  ⟨by decide, listNames_distinct "a" "b" false false (by decide)⟩

/-! ## Commands on a connection -/

theorem World.command_ok (w : World) (hp : w.poolClosed = false)
    (hf : w.faults.head? ≠ some true) :
    ∃ w1, w.command = (none, w1) ∧ w1.store = w.store ∧ w1.poolClosed = false ∧
      w1.faults = w.faults.tail := by
  obtain ⟨st, pc, fs⟩ := w
  simp only at hp
  subst hp
  cases fs with
  | nil => exact ⟨_, by simp [World.command], rfl, rfl, rfl⟩
  | cons f fs =>
    cases f with
    | true => simp at hf
    | false => exact ⟨⟨st, false, fs⟩, by simp [World.command], rfl, rfl, rfl⟩

theorem World.healthy_head (w : World) (h : w.healthy) : w.faults.head? ≠ some true := by
  intro hh
  have hm : true ∈ w.faults := List.mem_of_mem_head? (by rw [hh]; rfl)
  exact absurd (h.2 true hm) (by decide)

theorem World.healthy_of_tail (w w1 : World) (h : w.healthy) (hp : w1.poolClosed = false)
    (hf : w1.faults = w.faults.tail) : w1.healthy := by
  refine ⟨hp, fun f hfm => h.2 f ?_⟩
  rw [hf] at hfm
  exact List.mem_of_mem_tail hfm

theorem World.command_cases (w : World) :
    (∃ e, w.command = (some e, w) ∧ e ≠ Err.ErrNil) ∨
    (∃ e w1, w.command = (some e, w1) ∧ e ≠ Err.ErrNil ∧ w1.store = w.store) ∨
    (∃ w1, w.command = (none, w1) ∧ w1.store = w.store) := by
  obtain ⟨st, pc, fs⟩ := w
  cases pc with
  | true => exact Or.inl ⟨Err.poolClosed, by simp [World.command], by decide⟩
  | false =>
    cases fs with
    | nil => exact Or.inr (Or.inr ⟨_, by simp [World.command], rfl⟩)
    | cons f fs =>
      cases f with
      | true =>
        exact Or.inr (Or.inl ⟨Err.transport, ⟨st, false, fs⟩, by simp [World.command],
          by decide, rfl⟩)
      | false => exact Or.inr (Or.inr ⟨⟨st, false, fs⟩, by simp [World.command], rfl⟩)

theorem Store.rpoplpush_some (s : Store) (src dst : String) (v : Bytes) (hne : src ≠ dst)
    (hlast : (s src).getLast? = some v) :
    (s.rpoplpush src dst).1 = some v ∧
    (s.rpoplpush src dst).2 src = (s src).dropLast ∧
    (s.rpoplpush src dst).2 dst = v :: s dst ∧
    ∀ k, k ≠ src → k ≠ dst → (s.rpoplpush src dst).2 k = s k := by
  simp only [Store.rpoplpush, hlast]
  refine ⟨trivial, ?_, ?_, ?_⟩
  · simp [Store.set, hne]
  · simp [Store.set, Ne.symm hne]
  · intro k h1 h2
    simp [Store.set, h1, h2]

theorem Store.rpoplpush_none (s : Store) (src dst : String) (hempty : s src = []) :
    s.rpoplpush src dst = (none, s) := by
  simp [Store.rpoplpush, hempty]

theorem World.doRPOPLPUSH_some (w : World) (src dst : String) (v : Bytes)
    (hp : w.poolClosed = false) (hf : w.faults.head? ≠ some true) (hne : src ≠ dst)
    (hlast : (w.store src).getLast? = some v) :
    ∃ w1, w.doRPOPLPUSH src dst = (Except.ok v, w1) ∧
      w1.store src = (w.store src).dropLast ∧ w1.store dst = v :: w.store dst ∧
      (∀ k, k ≠ src → k ≠ dst → w1.store k = w.store k) ∧
      w1.poolClosed = false ∧ w1.faults = w.faults.tail := by
  obtain ⟨w1, hc, hs, hp1, hf1⟩ := w.command_ok hp hf
  rw [← hs] at hlast
  obtain ⟨h1, h2, h3, h4⟩ := Store.rpoplpush_some w1.store src dst v hne hlast
  refine ⟨{ w1 with store := (w1.store.rpoplpush src dst).2 }, ?_, ?_, ?_, ?_, hp1, hf1⟩
  · simp only [World.doRPOPLPUSH, hc]
    generalize hr : w1.store.rpoplpush src dst = r at h1
    obtain ⟨o, s⟩ := r
    simp only at h1
    subst h1
    rfl
  · rw [← hs]; exact h2
  · rw [← hs]; exact h3
  · intro k hk1 hk2
    rw [← hs]; exact h4 k hk1 hk2

theorem World.doRPOPLPUSH_none (w : World) (src dst : String)
    (hp : w.poolClosed = false) (hf : w.faults.head? ≠ some true) (hempty : w.store src = []) :
    ∃ w1, w.doRPOPLPUSH src dst = (Except.error Err.ErrNil, w1) ∧ w1.store = w.store ∧
      w1.poolClosed = false ∧ w1.faults = w.faults.tail := by
  obtain ⟨w1, hc, hs, hp1, hf1⟩ := w.command_ok hp hf
  rw [← hs] at hempty
  refine ⟨w1, ?_, hs, hp1, hf1⟩
  simp only [World.doRPOPLPUSH, hc, Store.rpoplpush_none _ _ _ hempty]

/-! ## Get -/

/-- C7: a `Get` whose context is already cancelled at the first check returns
the shutting-down error and no queued message, and changes nothing: both lists
(and the rest of the world) are as they were. -/
theorem Get_cancelled_at_start {Msg : Type} (c : Codec Msg) (rq : redisQueue) (ctx : Nat → Bool)
    (fuel : Nat) (w : World) (hctx : ctx 0 = true) :
    rq.Get c ctx (fuel + 1) w = some ((none, some Err.shuttingDown), w) := by
  simp [redisQueue.Get, redisQueue.getLoop, hctx]

/-- Witness for `Get_cancelled_at_start`: both lists empty, context cancelled. -/
theorem Get_cancelled_at_start_witness :
    (fun _ : Nat => true) 0 = true ∧
    redisQueue.Get bytesCodec ⟨"q", false⟩ (fun _ => true) 1 (World.ofLists [] [] false []) =
      some ((none, some Err.shuttingDown), World.ofLists [] [] false []) :=
  ⟨rfl, Get_cancelled_at_start bytesCodec ⟨"q", false⟩ (fun _ => true) 0
    (World.ofLists [] [] false []) rfl⟩

/-- C6: when the context is live, the command goes through and the payload next
to be claimed (the last element of the main list) does not decode, `Get` returns
the decoder's error and no queued message; the payload has left the main list
and is in the processing list. -/
theorem Get_decode_failure {Msg : Type} (c : Codec Msg) (rq : redisQueue) (ctx : Nat → Bool)
    (fuel : Nat) (w : World) (raw : Bytes) (e : Err)
    (hctx : ctx 0 = false) (hp : w.poolClosed = false) (hf : w.faults.head? ≠ some true)
    (hnext : (w.store rq.listNames.1).getLast? = some raw)
    (hdec : c.UnmarshalPushMessage raw = Except.error e) :
    ∃ w1, rq.Get c ctx (fuel + 1) w = some ((none, some e), w1) ∧
      raw ∈ w1.store rq.listNames.2 ∧
      w1.store rq.listNames.2 = raw :: w.store rq.listNames.2 ∧
      w1.store rq.listNames.1 = (w.store rq.listNames.1).dropLast := by
  obtain ⟨w1, hdo, hsrc, hdst, -, -, -⟩ :=
    w.doRPOPLPUSH_some rq.listNames.1 rq.listNames.2 raw hp hf (listNames_ne rq) hnext
  refine ⟨w1, ?_, ?_, hdst, hsrc⟩
  · simp [redisQueue.Get, redisQueue.getLoop, hctx, World.doBRPOPLPUSH, hdo, hdec]
  · rw [hdst]; exact List.mem_cons_self _ _

/-- Witness for `Get_decode_failure`: the main list holds the empty payload,
which `bytesCodec` rejects. -/
theorem Get_decode_failure_witness :
    ∃ w1, redisQueue.Get bytesCodec ⟨"q", false⟩ (fun _ => false) 1
        (World.ofLists [[]] [[7]] false []) = some ((none, some Err.unmarshal), w1) ∧
      ([] : Bytes) ∈ w1.store (redisQueue.listNames ⟨"q", false⟩).2 ∧
      w1.store (redisQueue.listNames ⟨"q", false⟩).2 =
        [] :: (World.ofLists [[]] [[7]] false []).store (redisQueue.listNames ⟨"q", false⟩).2 ∧
      w1.store (redisQueue.listNames ⟨"q", false⟩).1 =
        ((World.ofLists [[]] [[7]] false []).store (redisQueue.listNames ⟨"q", false⟩).1).dropLast :=
  Get_decode_failure bytesCodec ⟨"q", false⟩ (fun _ => false) 0
    (World.ofLists [[]] [[7]] false []) [] Err.unmarshal rfl rfl (by decide) (by decide) rfl

/-- C1, the code at the failing input: after `Queue [1]` and `Queue [2]` on empty
lists the main list is `[[1], [2]]`, and the first `Get` returns the message
enqueued last, `[2]`, leaving `[1]` in the main list. -/
theorem Get_returns_last_enqueued :
    ((redisQueue.Queue bytesCodec ⟨"q", false⟩ [2]
        (redisQueue.Queue bytesCodec ⟨"q", false⟩ [1]
          (World.ofLists [] [] false [])).2).2.store "shove:q" = [[1], [2]]) ∧
    (redisQueue.Get bytesCodec ⟨"q", false⟩ (fun _ => false) 1
        (redisQueue.Queue bytesCodec ⟨"q", false⟩ [2]
          (redisQueue.Queue bytesCodec ⟨"q", false⟩ [1]
            (World.ofLists [] [] false [])).2).2).map
      (fun r => (r.1.1.map (fun qm => (qm.raw, qm.msg)), r.1.2, r.2.store "shove:q",
        r.2.store "shove:q:pending")) =
      some (some ([2], [2]), none, [[1]], [[2]]) := by
  decide

/-- C2, the code at the failing input: the `RPUSH` of `Queue` fails in
transport, nothing is appended to the main list, and `Queue` returns nil. -/
theorem Queue_swallows_storage_error :
    (World.doRPUSH (World.ofLists [] [] false [true]) "shove:q" [1]).1 = some Err.transport ∧
    (redisQueue.Queue bytesCodec ⟨"q", false⟩ [1] (World.ofLists [] [] false [true])).1 = none ∧
    (redisQueue.Queue bytesCodec ⟨"q", false⟩ [1]
      (World.ofLists [] [] false [true])).2.store "shove:q" = [] := by
  decide

/-- C8, the code at the failing input: after `Shutdown` the flag is set, and a
`Get` with a live context on a non-empty queue returns the closed-pool error of
its `BRPOPLPUSH`, not the shutting-down error. -/
theorem Get_after_Shutdown :
    (redisQueue.Shutdown ⟨"q", false⟩ (World.ofLists [[1]] [] false [])).1.shuttingDown = true ∧
    (redisQueue.Get bytesCodec
        (redisQueue.Shutdown ⟨"q", false⟩ (World.ofLists [[1]] [] false [])).1 (fun _ => false) 1
        (redisQueue.Shutdown ⟨"q", false⟩ (World.ofLists [[1]] [] false [])).2.2).map
      (fun r => (r.1.1.map (fun qm => qm.raw), r.1.2, r.2.store "shove:q",
        r.2.store "shove:q:pending")) =
      some (none, some Err.poolClosed, [[1]], []) := by
  decide

/-! ## recover and NewQueue -/

theorem World.doRPOPLPUSH_cases (w : World) (src dst : String) (hne : src ≠ dst) :
    (∃ e w1, w.doRPOPLPUSH src dst = (Except.error e, w1) ∧ e ≠ Err.ErrNil) ∨
    (∃ w1, w.doRPOPLPUSH src dst = (Except.error Err.ErrNil, w1) ∧ w1.store src = []) ∨
    (∃ v w1, w.doRPOPLPUSH src dst = (Except.ok v, w1) ∧
      (w1.store src).length + 1 = (w.store src).length) := by
  rcases w.command_cases with ⟨e, hc, he⟩ | ⟨e, w1, hc, he, -⟩ | ⟨w1, hc, hs⟩
  · exact Or.inl ⟨e, w, by simp [World.doRPOPLPUSH, hc], he⟩
  · exact Or.inl ⟨e, w1, by simp [World.doRPOPLPUSH, hc], he⟩
  · cases hl : (w1.store src).getLast? with
    | none =>
      have hempty : w1.store src = [] := List.getLast?_eq_none_iff.mp hl
      refine Or.inr (Or.inl ⟨w1, ?_, hempty⟩)
      simp only [World.doRPOPLPUSH, hc, Store.rpoplpush_none _ _ _ hempty]
    | some v =>
      obtain ⟨h1, h2, -, -⟩ := Store.rpoplpush_some w1.store src dst v hne hl
      refine Or.inr (Or.inr ⟨v, { w1 with store := (w1.store.rpoplpush src dst).2 }, ?_, ?_⟩)
      · simp only [World.doRPOPLPUSH, hc]
        generalize w1.store.rpoplpush src dst = r at h1
        obtain ⟨o, s⟩ := r
        simp only at h1
        subst h1
        rfl
      · simp only [h2, List.length_dropLast, ← hs]
        have hpos : 0 < (w1.store src).length := by
          cases hx : w1.store src with
          | nil => rw [hx] at hl; simp at hl
          | cons a t => simp
        omega

theorem recoverLoop_terminates (l pl : String) (hne : l ≠ pl) (fuel : Nat) :
    ∀ w : World, (w.store pl).length < fuel →
      ∃ r w1, redisQueue.recoverLoop l pl fuel w = some (r, w1) ∧
        (r = none → w1.store pl = []) := by
  induction fuel with
  | zero => intro w h; omega
  | succ n ih =>
    intro w h
    rcases w.doRPOPLPUSH_cases pl l (Ne.symm hne) with ⟨e, w1, hd, he⟩ | ⟨w1, hd, hs⟩ | ⟨v, w1, hd, hlen⟩
    · refine ⟨some e, w1, ?_, by simp⟩
      cases e <;> simp_all [redisQueue.recoverLoop]
    · exact ⟨none, w1, by simp [redisQueue.recoverLoop, hd], fun _ => hs⟩
    · obtain ⟨r, w2, hr, hp⟩ := ih w1 (by omega)
      exact ⟨r, w2, by simp [redisQueue.recoverLoop, hd, hr], hp⟩

theorem recoverLoop_healthy (l pl : String) (hne : l ≠ pl) (fuel : Nat) :
    ∀ w : World, w.healthy → (w.store pl).length < fuel →
      ∃ w1, redisQueue.recoverLoop l pl fuel w = some (none, w1) ∧
        w1.store pl = [] ∧ w1.store l = w.store pl ++ w.store l ∧
        (∀ k, k ≠ l → k ≠ pl → w1.store k = w.store k) := by
  induction fuel with
  | zero => intro w _ h; omega
  | succ n ih =>
    intro w hw h
    cases hl : (w.store pl).getLast? with
    | none =>
      have hempty : w.store pl = [] := List.getLast?_eq_none_iff.mp hl
      obtain ⟨w1, hd, hs, -, -⟩ := w.doRPOPLPUSH_none pl l hw.1 (w.healthy_head hw) hempty
      refine ⟨w1, by simp [redisQueue.recoverLoop, hd], by rw [hs]; exact hempty, ?_, ?_⟩
      · rw [hs, hempty]; rfl
      · intro k _ _; rw [hs]
    | some v =>
      obtain ⟨w1, hd, hsrc, hdst, hoth, hp1, hf1⟩ :=
        w.doRPOPLPUSH_some pl l v hw.1 (w.healthy_head hw) (Ne.symm hne) hl
      have hw1 : w1.healthy := w.healthy_of_tail w1 hw hp1 hf1
      have hsplit : (w.store pl).dropLast ++ [v] = w.store pl :=
        List.dropLast_append_getLast? v hl
      have hlen : (w1.store pl).length < n := by
        rw [hsrc, List.length_dropLast]
        have : (w.store pl).length = ((w.store pl).dropLast ++ [v]).length := by rw [hsplit]
        rw [List.length_append, List.length_dropLast] at this
        simp at this
        omega
      obtain ⟨w2, hr, he, hm, ho⟩ := ih w1 hw1 hlen
      refine ⟨w2, by simp [redisQueue.recoverLoop, hd, hr], he, ?_, ?_⟩
      · rw [hm, hsrc, hdst]
        conv_rhs => rw [← hsplit]
        simp
      · intro k hk1 hk2
        rw [ho k hk1 hk2, hoth k hk2 hk1]

/-- C3: on a world where no command fails, `recover` with enough fuel stops
without error, the processing list is empty afterwards, and the main list is a
rearrangement of the old main list together with the old processing list. -/
theorem recover_drains_processing (rq : redisQueue) (fuel : Nat) (w : World)
    (hw : w.healthy) (hfuel : (w.store rq.listNames.2).length < fuel) :
    ∃ w1, rq.recover fuel w = some (none, w1) ∧
      w1.store rq.listNames.2 = [] ∧
      (w1.store rq.listNames.1).Perm (w.store rq.listNames.1 ++ w.store rq.listNames.2) := by
  obtain ⟨w1, hr, he, hm, -⟩ :=
    recoverLoop_healthy rq.listNames.1 rq.listNames.2 (listNames_ne rq) fuel w hw hfuel
  refine ⟨w1, hr, he, ?_⟩
  rw [hm]
  exact List.perm_append_comm

/-- Witness for `recover_drains_processing`: one waiting and two claimed messages. -/
theorem recover_drains_processing_witness :
    ∃ w1, redisQueue.recover ⟨"q", false⟩ 3 (World.ofLists [[1]] [[2], [3]] false []) =
        some (none, w1) ∧
      w1.store (redisQueue.listNames ⟨"q", false⟩).2 = [] ∧
      (w1.store (redisQueue.listNames ⟨"q", false⟩).1).Perm
        ((World.ofLists [[1]] [[2], [3]] false []).store (redisQueue.listNames ⟨"q", false⟩).1 ++
          (World.ofLists [[1]] [[2], [3]] false []).store (redisQueue.listNames ⟨"q", false⟩).2) :=
  recover_drains_processing ⟨"q", false⟩ 3 (World.ofLists [[1]] [[2], [3]] false [])
    ⟨rfl, by simp [World.ofLists]⟩ (by decide)

/-- C9: with enough fuel `recover` returns, and `NewQueue` returns its error
unchanged; the handle is returned exactly when that error is nil, the
processing list of the id is then empty, and no handle is returned otherwise. -/
theorem NewQueue_handle_iff_recovered (id : String) (fuel : Nat) (w : World)
    (hfuel : (w.store (redisQueue.listNames ⟨id, false⟩).2).length < fuel) :
    ∃ r w1 q, redisQueue.recover ⟨id, false⟩ fuel w = some (r, w1) ∧
      redisQueueFactory.NewQueue id fuel w = some ((q, r), w1) ∧
      (q.isSome ↔ r = none) ∧
      (r = none → q = some ⟨id, false⟩ ∧ w1.store (redisQueue.listNames ⟨id, false⟩).2 = []) ∧
      (r ≠ none → q = none) := by
  obtain ⟨r, w1, hr, hp⟩ :=
    recoverLoop_terminates _ _ (listNames_ne ⟨id, false⟩) fuel w hfuel
  have hr2 : redisQueue.recover ⟨id, false⟩ fuel w = some (r, w1) := hr
  cases r with
  | none =>
    exact ⟨none, w1, some ⟨id, false⟩, hr2, by simp [redisQueueFactory.NewQueue, hr2],
      by simp, fun _ => ⟨rfl, hp rfl⟩, fun h => absurd rfl h⟩
  | some e =>
    exact ⟨some e, w1, none, hr2, by simp [redisQueueFactory.NewQueue, hr2],
      by simp, fun h => by simp at h, fun _ => rfl⟩

/-- Witness for `NewQueue_handle_iff_recovered`: two claimed messages, the
second command fails in transport. -/
theorem NewQueue_handle_iff_recovered_witness :
    ∃ r w1 q, redisQueue.recover ⟨"q", false⟩ 3 (World.ofLists [] [[2], [3]] false [false, true]) =
        some (r, w1) ∧
      redisQueueFactory.NewQueue "q" 3 (World.ofLists [] [[2], [3]] false [false, true]) =
        some ((q, r), w1) ∧
      (q.isSome ↔ r = none) ∧
      (r = none → q = some ⟨"q", false⟩ ∧ w1.store (redisQueue.listNames ⟨"q", false⟩).2 = []) ∧
      (r ≠ none → q = none) :=
  NewQueue_handle_iff_recovered "q" 3 (World.ofLists [] [[2], [3]] false [false, true])
    (by decide)

/-! ## Remove and Requeue -/

theorem Store.lrem1_key (s : Store) (key : String) (v : Bytes) :
    (s.lrem1 key v).2 key = (s key).erase v := by
  unfold Store.lrem1
  split
  · simp [Store.set]
  · rename_i h
    simp [List.erase_of_not_mem h]

theorem Store.lrem1_other (s : Store) (key k : String) (v : Bytes) (hk : k ≠ key) :
    (s.lrem1 key v).2 k = s k := by
  unfold Store.lrem1
  split
  · simp [Store.set, hk]
  · rfl

theorem Store.lrem1_absent (s : Store) (key : String) (v : Bytes) (h : v ∉ s key) :
    (s.lrem1 key v).2 = s := by
  simp [Store.lrem1, h]

theorem filter_ne_erase (a : Bytes) (xs : List Bytes) :
    (xs.erase a).filter (fun x => decide (x ≠ a)) = xs.filter (fun x => decide (x ≠ a)) := by
  induction xs with
  | nil => rfl
  | cons x t ih =>
    by_cases hx : x = a
    · subst hx
      simp
    · have hb : (x == a) = false := by simpa using hx
      rw [List.erase_cons, hb]
      simpa [hx] using ih

theorem perm_cons_erase_bytes (a : Bytes) (xs : List Bytes) (h : a ∈ xs) :
    xs.Perm (a :: xs.erase a) := by
  induction xs with
  | nil => simp at h
  | cons x t ih =>
    by_cases hx : x = a
    · subst hx
      simp
    · have hb : (x == a) = false := by simpa using hx
      have ht : a ∈ t := by
        rcases List.mem_cons.mp h with h1 | h1
        · exact absurd h1.symm hx
        · exact h1
      rw [List.erase_cons, hb]
      exact ((ih ht).cons x).trans (List.Perm.swap a x _)

theorem World.command_none_store (w w1 : World) (h : w.command = (none, w1)) :
    w1.store = w.store := by
  rcases w.command_cases with ⟨e, hc, -⟩ | ⟨e, w2, hc, -, -⟩ | ⟨w2, hc, hs⟩
  · rw [hc] at h; simp at h
  · rw [hc] at h; simp at h
  · rw [hc] at h
    simp only [Prod.mk.injEq, true_and] at h
    rw [← h]; exact hs

theorem Requeue_ok_store {Msg : Type} (rq : redisQueue) (qm : redisQueuedMessage Msg)
    (w w1 : World) (hok : rq.Requeue qm w = (none, w1)) :
    w1.store = ((w.store.lrem1 rq.listNames.2 qm.raw).2).rpush rq.listNames.1 qm.raw := by
  unfold redisQueue.Requeue World.send at hok
  rcases ha : w.command with ⟨_ | e, wa⟩
  · rcases hb : wa.command with ⟨_ | e, wb⟩
    · rcases hc : wb.command with ⟨_ | e, wc⟩
      · rcases hd : wc.command with ⟨_ | e, wd⟩
        · simp only [ha, hb, hc, World.doEXEC, hd, Prod.mk.injEq, true_and] at hok
          rw [← hok]
          simp only
          rw [World.command_none_store _ _ hd, World.command_none_store _ _ hc,
            World.command_none_store _ _ hb, World.command_none_store _ _ ha]
        · simp [ha, hb, hc, World.doEXEC, hd] at hok
      · simp [ha, hb, hc] at hok
    · simp [ha, hb] at hok
  · simp [ha] at hok

/-- C4, as stated, fails: a `Requeue` of a message whose bytes are not in the
processing list succeeds and still appends the bytes to the main list, so the
combined contents of the two lists grow by one. -/
theorem Requeue_absent_message_grows :
    (redisQueue.Requeue ⟨"q", false⟩ (⟨[1], [1]⟩ : redisQueuedMessage Bytes)
      (World.ofLists [] [] false [])).1 = none ∧
    (World.ofLists [] [] false []).store "shove:q" ++
      (World.ofLists [] [] false []).store "shove:q:pending" = [] ∧
    (redisQueue.Requeue ⟨"q", false⟩ (⟨[1], [1]⟩ : redisQueuedMessage Bytes)
        (World.ofLists [] [] false [])).2.store "shove:q" ++
      (redisQueue.Requeue ⟨"q", false⟩ (⟨[1], [1]⟩ : redisQueuedMessage Bytes)
        (World.ofLists [] [] false [])).2.store "shove:q:pending" = [[1]] := by
  decide

/-- C4, amended: when the message's raw bytes occur in the processing list, a
`Requeue` that returns nil removes their first occurrence from the processing
list and appends them once to the tail of the main list; the two lists together
hold the same messages as before, and no other list changes. -/
theorem Requeue_moves_one {Msg : Type} (rq : redisQueue) (qm : redisQueuedMessage Msg)
    (w w1 : World) (hok : rq.Requeue qm w = (none, w1))
    (hmem : qm.raw ∈ w.store rq.listNames.2) :
    w1.store rq.listNames.2 = (w.store rq.listNames.2).erase qm.raw ∧
    w1.store rq.listNames.1 = w.store rq.listNames.1 ++ [qm.raw] ∧
    (w1.store rq.listNames.1 ++ w1.store rq.listNames.2).Perm
      (w.store rq.listNames.1 ++ w.store rq.listNames.2) ∧
    ∀ k, k ≠ rq.listNames.1 → k ≠ rq.listNames.2 → w1.store k = w.store k := by
  have hs := Requeue_ok_store rq qm w w1 hok
  have hne := listNames_ne rq
  have hpl : w1.store rq.listNames.2 = (w.store rq.listNames.2).erase qm.raw := by
    rw [hs, Store.rpush, Store.set_other _ _ _ _ (Ne.symm hne), Store.lrem1_key]
  have hl : w1.store rq.listNames.1 = w.store rq.listNames.1 ++ [qm.raw] := by
    rw [hs, Store.rpush, Store.set_same, Store.lrem1_other _ _ _ _ hne]
  refine ⟨hpl, hl, ?_, ?_⟩
  · rw [hpl, hl, List.append_assoc]
    refine List.Perm.append_left _ ?_
    simpa using (perm_cons_erase_bytes _ _ hmem).symm
  · intro k hk1 hk2
    rw [hs, Store.rpush, Store.set_other _ _ _ _ hk1, Store.lrem1_other _ _ _ _ hk2]

/-- Witness for `Requeue_moves_one`: the claimed message `[2]` goes back
behind the waiting message `[1]`. -/
theorem Requeue_moves_one_witness :
    (redisQueue.Requeue ⟨"q", false⟩ (⟨[2], [2]⟩ : redisQueuedMessage Bytes)
      (World.ofLists [[1]] [[2]] false [])).1 = none ∧
    ([2] : Bytes) ∈ (World.ofLists [[1]] [[2]] false []).store "shove:q:pending" ∧
    (redisQueue.Requeue ⟨"q", false⟩ (⟨[2], [2]⟩ : redisQueuedMessage Bytes)
      (World.ofLists [[1]] [[2]] false [])).2.store (redisQueue.listNames ⟨"q", false⟩).2 =
      ((World.ofLists [[1]] [[2]] false []).store (redisQueue.listNames ⟨"q", false⟩).2).erase [2] ∧
    (redisQueue.Requeue ⟨"q", false⟩ (⟨[2], [2]⟩ : redisQueuedMessage Bytes)
      (World.ofLists [[1]] [[2]] false [])).2.store (redisQueue.listNames ⟨"q", false⟩).1 =
      (World.ofLists [[1]] [[2]] false []).store (redisQueue.listNames ⟨"q", false⟩).1 ++ [[2]] :=
  have h := Requeue_moves_one ⟨"q", false⟩ (⟨[2], [2]⟩ : redisQueuedMessage Bytes)
    (World.ofLists [[1]] [[2]] false [])
    (redisQueue.Requeue ⟨"q", false⟩ (⟨[2], [2]⟩ : redisQueuedMessage Bytes)
      (World.ofLists [[1]] [[2]] false [])).2
    (by simp [redisQueue.Requeue, World.send, World.doEXEC, World.command, World.ofLists])
    (by decide)
  ⟨by decide, by decide, h.1, h.2.1⟩

theorem Remove_healthy {Msg : Type} (rq : redisQueue) (qm : redisQueuedMessage Msg) (w : World)
    (hw : w.healthy) :
    ∃ w1, rq.Remove qm w = (none, w1) ∧ w1.healthy ∧
      w1.store = (w.store.lrem1 rq.listNames.2 qm.raw).2 := by
  obtain ⟨wa, hc, hs, hp, hf⟩ := w.command_ok hw.1 (w.healthy_head hw)
  refine ⟨{ wa with store := (wa.store.lrem1 rq.listNames.2 qm.raw).2 }, ?_, ?_, ?_⟩
  · simp [redisQueue.Remove, World.doLREM, hc]
  · exact w.healthy_of_tail _ hw hp hf
  · simp only [hs]

/-- C5, as stated, fails: with two claimed messages of identical bytes the
second `Remove` of the same queued message removes the other one, so the state
after the second call is not the state after the first. -/
theorem Remove_twice_removes_duplicate :
    (redisQueue.Remove ⟨"q", false⟩ (⟨[1], [1]⟩ : redisQueuedMessage Bytes)
      (World.ofLists [] [[1], [1]] false [])).2.store "shove:q:pending" = [[1]] ∧
    (redisQueue.Remove ⟨"q", false⟩ (⟨[1], [1]⟩ : redisQueuedMessage Bytes)
      (redisQueue.Remove ⟨"q", false⟩ (⟨[1], [1]⟩ : redisQueuedMessage Bytes)
        (World.ofLists [] [[1], [1]] false [])).2).2.store "shove:q:pending" = [] := by
  decide

/-- C5, amended: absent transport failure two calls of `Remove` on the same
queued message both return nil; each removes the first occurrence of the raw
bytes from the processing list, if there is one, and touches no other list;
entries of the processing list with other bytes keep their places; and the
second call changes nothing when the processing list held the raw bytes at most
once before the first call. -/
theorem Remove_twice {Msg : Type} (rq : redisQueue) (qm : redisQueuedMessage Msg) (w : World)
    (hw : w.healthy) :
    ∃ w1 w2, rq.Remove qm w = (none, w1) ∧ rq.Remove qm w1 = (none, w2) ∧
      w1.store rq.listNames.2 = (w.store rq.listNames.2).erase qm.raw ∧
      w2.store rq.listNames.2 = (w1.store rq.listNames.2).erase qm.raw ∧
      (∀ k, k ≠ rq.listNames.2 → w1.store k = w.store k ∧ w2.store k = w.store k) ∧
      (w2.store rq.listNames.2).filter (fun x => decide (x ≠ qm.raw)) =
        (w.store rq.listNames.2).filter (fun x => decide (x ≠ qm.raw)) ∧
      ((w.store rq.listNames.2).count qm.raw ≤ 1 → w2.store = w1.store) := by
  obtain ⟨w1, h1, hw1, hs1⟩ := Remove_healthy rq qm w hw
  obtain ⟨w2, h2, -, hs2⟩ := Remove_healthy rq qm w1 hw1
  have e1 : w1.store rq.listNames.2 = (w.store rq.listNames.2).erase qm.raw := by
    rw [hs1, Store.lrem1_key]
  have e2 : w2.store rq.listNames.2 = (w1.store rq.listNames.2).erase qm.raw := by
    rw [hs2, Store.lrem1_key]
  refine ⟨w1, w2, h1, h2, e1, e2, ?_, ?_, ?_⟩
  · intro k hk
    have a1 : w1.store k = w.store k := by rw [hs1, Store.lrem1_other _ _ _ _ hk]
    have a2 : w2.store k = w1.store k := by rw [hs2, Store.lrem1_other _ _ _ _ hk]
    exact ⟨a1, a2.trans a1⟩
  · rw [e2, filter_ne_erase, e1, filter_ne_erase]
  · intro hc
    have hz : (w1.store rq.listNames.2).count qm.raw = 0 := by
      rw [e1, List.count_erase_self]
      omega
    have hn : qm.raw ∉ w1.store rq.listNames.2 := List.count_eq_zero.mp hz
    rw [hs2, Store.lrem1_absent _ _ _ hn]

/-- Witness for `Remove_twice`: one claimed message `[2]`, one waiting `[1]`. -/
theorem Remove_twice_witness :
    ∃ w1 w2,
      redisQueue.Remove ⟨"q", false⟩ (⟨[2], [2]⟩ : redisQueuedMessage Bytes)
        (World.ofLists [[1]] [[2]] false []) = (none, w1) ∧
      redisQueue.Remove ⟨"q", false⟩ (⟨[2], [2]⟩ : redisQueuedMessage Bytes) w1 = (none, w2) ∧
      w1.store "shove:q:pending" = [] ∧ w1.store "shove:q" = [[1]] ∧ w2.store = w1.store :=
  match Remove_twice ⟨"q", false⟩ (⟨[2], [2]⟩ : redisQueuedMessage Bytes)
    (World.ofLists [[1]] [[2]] false []) ⟨rfl, by simp [World.ofLists]⟩ with
  | ⟨w1, w2, h1, h2, h3, _, h5, _, h7⟩ =>
    ⟨w1, w2, h1, h2, h3.trans (by decide), (h5 "shove:q" (by decide)).1.trans (by decide),
      h7 (by decide)⟩

end Shove
